import Mathlib

/-!
Verification of the "skies" shift system (src/main.rs): a shallow embedding of
the error taxonomy, the leaf shift actions (directory creation, file creation,
command execution), the plan orchestrator (apply-with-rollback, revert-in-reverse
with error accumulation), and the GitHubClone composite, together with theorems
settling the specification claims.

Modelling conventions:
* The filesystem is a flat association list from path strings to nodes
  (directory or file-with-content).  OS-level failures of the primitive calls
  themselves (permissions, missing parent directory) are outside the model;
  the embedding covers the code's own control flow over path existence/kind,
  which is what the claims are about.
* `io::Error` payloads are modelled by their message text (a `String`).
* Process execution is modelled by an explicit result supplied to the command
  shift: either a launch failure (the `io::Error` text from `.output()`) or a
  `ProcOutput` carrying the optional exit code (`status.code()`, `none` when
  the child was terminated by a signal) and the captured stderr text.
* In one orchestrator call each shift's `apply` is invoked at most once and its
  `revert` at most once, so for the orchestrator theorems a shift is abstracted
  by the results those single invocations return (`ShiftB`).
-/

deriving instance DecidableEq for Except

/-- Mirrors `enum ShiftError` from src/main.rs.  `IoError` wraps an underlying
OS error, modelled by its message text. -/
inductive ShiftError where
  | IoError (msg : String)
  | CommandFailed (msg : String)
  | ValidationFailed (msg : String)
  | AlreadyExists (msg : String)
  | NotFound (msg : String)
  | Custom (msg : String)
deriving DecidableEq

/-- Mirrors `type ShiftResult<T> = Result<T, ShiftError>` at `T = ()`. -/
abbrev ShiftResult := Except ShiftError Unit

/-- True exactly on the `ValidationFailed` error kind. -/
def ShiftError.isValidationFailed : ShiftError → Bool
  | ShiftError.ValidationFailed _ => true
  | _ => false

/-- True exactly on the `AlreadyExists` error kind. -/
def ShiftError.isAlreadyExists : ShiftError → Bool
  | ShiftError.AlreadyExists _ => true
  | _ => false

/-- True exactly on the `CommandFailed` error kind. -/
def ShiftError.isCommandFailed : ShiftError → Bool
  | ShiftError.CommandFailed _ => true
  | _ => false

/-- True when the result is an error whose kind satisfies `p`. -/
def resultErrKind (r : ShiftResult) (p : ShiftError → Bool) : Bool :=
  match r with
  | Except.error e => p e
  | Except.ok _ => false

/-- Models the pretty `Debug` rendering `{:#?}` of a `ShiftError` (string
payloads are shown quoted; escaping inside the payload is not modelled). -/
def debugFmt : ShiftError → String
  | ShiftError.IoError m => "IoError(\n    " ++ m ++ ",\n)"
  | ShiftError.CommandFailed m => "CommandFailed(\n    \x22" ++ m ++ "\x22,\n)"
  | ShiftError.ValidationFailed m => "ValidationFailed(\n    \x22" ++ m ++ "\x22,\n)"
  | ShiftError.AlreadyExists m => "AlreadyExists(\n    \x22" ++ m ++ "\x22,\n)"
  | ShiftError.NotFound m => "NotFound(\n    \x22" ++ m ++ "\x22,\n)"
  | ShiftError.Custom m => "Custom(\n    \x22" ++ m ++ "\x22,\n)"

/-- A node of the modelled filesystem: a directory or a file with content. -/
inductive FsNode where
  | dir
  | file (content : String)
deriving DecidableEq

/-- The modelled filesystem: a flat association list from paths to nodes. -/
abbrev Fs := List (String × FsNode)

/-- Look up the node at a path (first matching entry). -/
def Fs.lookup : Fs → String → Option FsNode
  | [], _ => none
  | (q, n) :: rest, p => if q = p then some n else Fs.lookup rest p

/-- Add an entry for a path (used only when the path is absent). -/
def Fs.insert (fs : Fs) (p : String) (n : FsNode) : Fs :=
  (p, n) :: fs

/-- Remove the entry at exactly one path (models `fs::remove_file`). -/
def Fs.erase (fs : Fs) (p : String) : Fs :=
  fs.filter (fun e => !(e.1 = p))

/-- Remove a path and everything below it (models `fs::remove_dir_all`). -/
def Fs.eraseTree (fs : Fs) (p : String) : Fs :=
  fs.filter (fun e => !(e.1 = p || (p ++ "/").isPrefixOf e.1))

/-- True when the path is occupied by a non-directory file. -/
def Fs.isFileAt (fs : Fs) (p : String) : Bool :=
  match Fs.lookup fs p with
  | some (FsNode.file _) => true
  | _ => false

/-- Mirrors `CreateDir::apply` (src/main.rs:53-69): existing directory is
success, existing non-directory is `AlreadyExists`, absent path is created. -/
def CreateDir.applyFs (path : String) (fs : Fs) : ShiftResult × Fs :=
  match Fs.lookup fs path with
  | some FsNode.dir => (Except.ok (), fs)
  | some (FsNode.file _) =>
    (Except.error (ShiftError.AlreadyExists
      ("Path " ++ path ++ " exists but is not a directory")), fs)
  | none => (Except.ok (), Fs.insert fs path FsNode.dir)

/-- Mirrors `CreateDir::revert` (src/main.rs:71-88): no-op if absent,
`ValidationFailed` if not a directory, otherwise remove the whole tree. -/
def CreateDir.revertFs (path : String) (fs : Fs) : ShiftResult × Fs :=
  match Fs.lookup fs path with
  | none => (Except.ok (), fs)
  | some (FsNode.file _) =>
    (Except.error (ShiftError.ValidationFailed
      ("Path " ++ path ++ " is not a directory")), fs)
  | some FsNode.dir => (Except.ok (), Fs.eraseTree fs path)

/-- Mirrors `CreateDir::is_applied` (src/main.rs:90-93). -/
def CreateDir.isAppliedFs (path : String) (fs : Fs) : Except ShiftError Bool :=
  Except.ok (match Fs.lookup fs path with
    | some FsNode.dir => true
    | _ => false)

/-- Mirrors `CreateFile::apply` (src/main.rs:113-125): any existing node at the
path is `AlreadyExists`; otherwise the file is written. -/
def CreateFile.applyFs (path content : String) (fs : Fs) : ShiftResult × Fs :=
  match Fs.lookup fs path with
  | some _ =>
    (Except.error (ShiftError.AlreadyExists
      ("File " ++ path ++ " already exists")), fs)
  | none => (Except.ok (), Fs.insert fs path (FsNode.file content))

/-- Mirrors `CreateFile::revert` (src/main.rs:127-143). -/
def CreateFile.revertFs (path : String) (fs : Fs) : ShiftResult × Fs :=
  match Fs.lookup fs path with
  | none => (Except.ok (), fs)
  | some FsNode.dir =>
    (Except.error (ShiftError.ValidationFailed
      ("Path " ++ path ++ " is not a file")), fs)
  | some (FsNode.file _) => (Except.ok (), Fs.erase fs path)

/-- Mirrors `struct Cmd` (src/main.rs:156-161); exit codes are Rust `i32`,
modelled as `Int`. -/
structure Cmd where
  command : String
  args : List String
  working_dir : Option String
  success_exit_codes : List Int
deriving DecidableEq

/-- Mirrors `Cmd::new` (src/main.rs:163-177): a missing accepted-exit-code set
defaults to `[0]`. -/
def Cmd.new (command : String) (args : List String) (working_dir : Option String)
    (success_exit_codes : Option (List Int)) : Cmd :=
  { command := command, args := args, working_dir := working_dir,
    success_exit_codes := success_exit_codes.getD [0] }

/-- The observable outcome of a spawned process: `status.code()` (none when the
child terminated without an exit code, e.g. by a signal) and captured stderr. -/
structure ProcOutput where
  exitCode : Option Int
  stderr : String
deriving DecidableEq

/-- Models `{:?}` of `Option<i32>`. -/
def fmtOptInt : Option Int → String
  | some n => "Some(" ++ toString n ++ ")"
  | none => "None"

/-- Mirrors `Cmd::apply` (src/main.rs:180-203) given the process result: the
`?` on `cmd.output()` converts a launch failure into `ShiftError::IoError`; an
exit code (defaulted to -1 when absent) outside the accepted set yields
`CommandFailed` with the code and the captured stderr in the message. -/
def Cmd.applyWith (c : Cmd) (res : Except String ProcOutput) : ShiftResult :=
  match res with
  | Except.error e => Except.error (ShiftError.IoError e)
  | Except.ok output =>
    if !(c.success_exit_codes.contains (output.exitCode.getD (-1))) then
      Except.error (ShiftError.CommandFailed
        ("Command \x27" ++ c.command ++ "\x27 failed with exit code "
          ++ fmtOptInt output.exitCode ++ ". Stderr: " ++ output.stderr))
    else Except.ok ()

/-- Mirrors `Cmd::revert` (src/main.rs:205-210): unconditional failure. -/
def Cmd.revert (_c : Cmd) : ShiftResult :=
  Except.error (ShiftError.Custom "Cannot automatically revert a command execution")

/-- Mirrors `Cmd::is_applied` (src/main.rs:212-217): unconditional failure. -/
def Cmd.isApplied (_c : Cmd) : Except ShiftError Bool :=
  Except.error (ShiftError.Custom "Cannot check if a command has been applied")

/-! ## Plan orchestrator over abstract shift behaviours

`ShiftPlan::apply` and `ShiftPlan::revert` drive shifts only through the
`Shift` trait.  In one orchestrator call each shift's `apply` is invoked at
most once and its `revert` at most once, so a shift is abstracted by the
results those single invocations return, plus its description. -/

/-- A shift as the orchestrator sees it during one plan invocation. -/
structure ShiftB where
  applyRes : ShiftResult
  revertRes : ShiftResult
  descr : String

/-- One trait-method invocation performed by the orchestrator: the shift's
position in the plan sequence (0-indexed) and the returned result. -/
inductive CallEvent where
  | applyCall (idx : Nat) (res : ShiftResult)
  | revertCall (idx : Nat) (res : ShiftResult)
deriving DecidableEq

/-- Pair each element of the list with its position, starting at `i`. -/
def enumFromIdx (i : Nat) : List ShiftB → List (Nat × ShiftB)
  | [] => []
  | s :: rest => (i, s) :: enumFromIdx (i + 1) rest

/-- The loop of `ShiftPlan::apply` (src/main.rs:247-280).  `applied` is the
applied-set with the most recently applied shift first, matching
`applied.iter().rev()`.  On an apply failure every applied shift is reverted —
each revert's own result is recorded in the trace but does not stop the
iteration — and the original apply error is returned. -/
def applyTraceAux : List (Nat × ShiftB) → List (Nat × ShiftB) → List CallEvent × ShiftResult
  | [], _ => ([], Except.ok ())
  | (i, s) :: rest, applied =>
    match s.applyRes with
    | Except.ok _ =>
      let out := applyTraceAux rest ((i, s) :: applied)
      (CallEvent.applyCall i (Except.ok ()) :: out.1, out.2)
    | Except.error e =>
      (CallEvent.applyCall i (Except.error e) ::
        applied.map (fun p => CallEvent.revertCall p.1 p.2.revertRes),
       Except.error e)

/-- `ShiftPlan::apply`, instrumented with the trace of trait-method calls. -/
def ShiftPlan.applyTrace (shifts : List ShiftB) : List CallEvent × ShiftResult :=
  applyTraceAux (enumFromIdx 0 shifts) []

/-- The revert invocations of a trace, in order. -/
def revertCalls (tr : List CallEvent) : List (Nat × ShiftResult) :=
  tr.filterMap (fun ev => match ev with
    | CallEvent.applyCall _ _ => none
    | CallEvent.revertCall i r => some (i, r))

/-- The loop of `ShiftPlan::revert` (src/main.rs:282-309), run on the already
reversed, enumerated sequence: every shift's revert is attempted exactly once;
a failure pushes "description: debug-formatted error" onto the accumulated
error list and iteration continues. -/
def revertTraceAux : List (Nat × ShiftB) → List String → List CallEvent × List String
  | [], errs => (([] : List CallEvent), errs)
  | (i, s) :: rest, errs =>
    match s.revertRes with
    | Except.ok _ =>
      let out := revertTraceAux rest errs
      (CallEvent.revertCall i (Except.ok ()) :: out.1, out.2)
    | Except.error e =>
      let out := revertTraceAux rest (errs ++ [s.descr ++ ": " ++ debugFmt e])
      (CallEvent.revertCall i (Except.error e) :: out.1, out.2)

/-- `ShiftPlan::revert`, instrumented with the trace of revert calls: iterate
the entire sequence in reverse order, accumulate failures, and return one
aggregate `Custom` error when the accumulated list is non-empty. -/
def ShiftPlan.revertTrace (shifts : List ShiftB) : List CallEvent × ShiftResult :=
  let out := revertTraceAux (enumFromIdx 0 shifts).reverse []
  if out.2.isEmpty then (out.1, Except.ok ())
  else (out.1, Except.error (ShiftError.Custom
    ("Failed to revert some shifts: " ++ String.intercalate ", " out.2)))

/-- The entry a shift contributes to the accumulated revert-error list, if
any: its description paired with its debug-formatted error. -/
def revertFailureEntry (s : ShiftB) : Option String :=
  match s.revertRes with
  | Except.ok _ => none
  | Except.error e => some (s.descr ++ ": " ++ debugFmt e)

/-- The revert-failure entries of a plan, in the reverse sequence order in
which `ShiftPlan::revert` visits the shifts. -/
def revertFailures (shifts : List ShiftB) : List String :=
  shifts.reverse.filterMap revertFailureEntry

/-! ## Concrete shifts, worlds and the GitHubClone composite -/

/-- A concrete leaf shift, as assembled into plans by the source. -/
inductive ShiftV where
  | createDir (path : String)
  | createFile (path content : String)
  | cmd (c : Cmd)
deriving DecidableEq

/-- The world a plan acts on: the filesystem, an oracle supplying the result
of each successive process spawn, and the log of commands handed to the
process runner. -/
structure World where
  fs : Fs
  procOracle : List (Except String ProcOutput)
  executed : List Cmd
deriving DecidableEq

/-- Dispatch of `Shift::apply` for concrete shifts.  A command spawn consumes
the next oracle entry and is appended to the execution log; an exhausted
oracle behaves as a launch failure. -/
def ShiftV.applyW : ShiftV → World → ShiftResult × World
  | ShiftV.createDir p, w =>
    let out := CreateDir.applyFs p w.fs
    (out.1, { w with fs := out.2 })
  | ShiftV.createFile p c, w =>
    let out := CreateFile.applyFs p c w.fs
    (out.1, { w with fs := out.2 })
  | ShiftV.cmd c, w =>
    match w.procOracle with
    | [] => (Cmd.applyWith c (Except.error "process launch failed"),
             { w with executed := w.executed ++ [c] })
    | r :: rest => (Cmd.applyWith c r,
             { w with procOracle := rest, executed := w.executed ++ [c] })

/-- Dispatch of `Shift::revert` for concrete shifts. -/
def ShiftV.revertW : ShiftV → World → ShiftResult × World
  | ShiftV.createDir p, w =>
    let out := CreateDir.revertFs p w.fs
    (out.1, { w with fs := out.2 })
  | ShiftV.createFile p _c, w =>
    let out := CreateFile.revertFs p w.fs
    (out.1, { w with fs := out.2 })
  | ShiftV.cmd c, w => (Cmd.revert c, w)

/-- The rollback loop inside `ShiftPlan::apply`: revert every applied shift
(most recently applied first), ignoring individual revert failures. -/
def revertAllW : List ShiftV → World → World
  | [], w => w
  | s :: rest, w => revertAllW rest (ShiftV.revertW s w).2

/-- The loop of `ShiftPlan::apply` (src/main.rs:247-280) over concrete shifts
acting on a world: on the first apply failure, roll back the applied-set and
return the original error. -/
def planApplyWAux : List ShiftV → List ShiftV → World → ShiftResult × World
  | [], _, w => (Except.ok (), w)
  | s :: rest, applied, w =>
    match ShiftV.applyW s w with
    | (Except.ok _, w1) => planApplyWAux rest (s :: applied) w1
    | (Except.error e, w1) => (Except.error e, revertAllW applied w1)

/-- Mirrors `struct ShiftPlan` (src/main.rs:232-236) over concrete shifts. -/
structure ShiftPlanV where
  name : String
  description : String
  shifts : List ShiftV
deriving DecidableEq

/-- `ShiftPlan::apply` over concrete shifts; the printed name and description
are observability only. -/
def ShiftPlanV.applyP (p : ShiftPlanV) (w : World) : ShiftResult × World :=
  planApplyWAux p.shifts [] w

/-- Mirrors `struct GitHubClone` (src/main.rs:312-318); the token is carried
but never used by `build_plan`, as in the source. -/
structure GitHubClone where
  repo_url : String
  target_dir : String
  branch : Option String
  depth : Option Nat
  auth_token : Option String
deriving DecidableEq

/-- Rust's `str::split` on one separator character, over the character list of
a string: splitting the empty string yields one empty part, and n separators
yield n + 1 parts, empties included. -/
def splitChar (sep : Char) : List Char → List (List Char)
  | [] => [[]]
  | c :: rest =>
    if c = sep then [] :: splitChar sep rest
    else
      match splitChar sep rest with
      | [] => [[c]]
      | h :: t => (c :: h) :: t

/-- Mirrors `GitHubClone::get_repo_name` (src/main.rs:337-348): split the URL
on the slash character, take the last part, and strip a trailing ".git".  The
source's `parts.len() >= 1` guard cannot fail (split always returns at least
one part); its unreachable else-branch is the `none` case here. -/
def GitHubClone.get_repo_name (g : GitHubClone) : String :=
  match (splitChar '/' g.repo_url.toList).getLast? with
  | some repo_with_git =>
    if List.isSuffixOf [ '.', 'g', 'i', 't' ] repo_with_git then
      String.mk (repo_with_git.take (repo_with_git.length - 4))
    else String.mk repo_with_git
  | none => "unknown_repo"

/-- Mirrors `GitHubClone::build_plan` (src/main.rs:350-378). -/
def GitHubClone.build_plan (g : GitHubClone) : ShiftPlanV :=
  let args1 := ["clone", g.repo_url]
    ++ (match g.branch with
        | some branch => ["--branch", branch]
        | none => [])
  let args := (args1
    ++ (match g.depth with
        | some depth => ["--depth", toString depth]
        | none => [])) ++ [g.target_dir]
  let git_plan := ShiftV.cmd (Cmd.new "git" args (some g.target_dir) none)
  { name := "Clone GitHub repository " ++ GitHubClone.get_repo_name g,
    description := "Clone GitHub repository " ++ GitHubClone.get_repo_name g
      ++ " into directory " ++ g.target_dir,
    shifts := [ShiftV.createDir g.target_dir, git_plan] }

/-- Mirrors `impl Shift for GitHubClone`, `apply` (src/main.rs:382-385): build
the internal plan and delegate to its apply algorithm. -/
def GitHubClone.applyS (g : GitHubClone) (w : World) : ShiftResult × World :=
  ShiftPlanV.applyP (GitHubClone.build_plan g) w

/-- The suffix of a character list after the last occurrence of `sep` (the
whole list when `sep` does not occur), recursing from the front. -/
def afterLastSep (sep : Char) : List Char → List Char
  | [] => []
  | c :: rest =>
    if sep ∈ rest then afterLastSep sep rest
    else if c = sep then rest
    else c :: rest

/-- Specification-side definition (follows the spec's words, for the C8
refinement): the final path segment of the URL — the substring after the last
slash, i.e. the longest suffix containing no slash. -/
def lastSegment (url : String) : List Char :=
  (url.toList.reverse.takeWhile (fun c => c != '/')).reverse

/-- Specification-side definition (follows the spec's words, for the C8
refinement): the derived repository name — the URL's final path segment with a
trailing ".git" suffix removed when present. -/
def specRepoName (url : String) : String :=
  if List.isSuffixOf [ '.', 'g', 'i', 't' ] (lastSegment url) then
    String.mk ((lastSegment url).take ((lastSegment url).length - 4))
  else String.mk (lastSegment url)

/-! ## Leaf-action theorems -/

/-- C3 counterexample: when the target path of a directory-creation shift is
occupied by a non-directory file, apply fails with the `AlreadyExists` kind,
not the `ValidationFailed` kind the claim names. -/
theorem createdir_wrong_kind_not_validation :
    (CreateDir.applyFs "p" [("p", FsNode.file "x")]).1
      = Except.error (ShiftError.AlreadyExists "Path p exists but is not a directory")
    ∧ resultErrKind (CreateDir.applyFs "p" [("p", FsNode.file "x")]).1
        ShiftError.isValidationFailed = false := by
  decide

/-- C3 (amended): for a directory-creation shift whose target path exists but
is not a directory, apply fails with the already-exists error kind, leaving the
filesystem unchanged; when the path exists as a directory, apply succeeds. -/
theorem createdir_apply_existing (fs : Fs) (path : String) :
    (∀ c, Fs.lookup fs path = some (FsNode.file c) →
      CreateDir.applyFs path fs
        = (Except.error (ShiftError.AlreadyExists
            ("Path " ++ path ++ " exists but is not a directory")), fs))
    ∧ (Fs.lookup fs path = some FsNode.dir →
        CreateDir.applyFs path fs = (Except.ok (), fs)) := by
  constructor
  · intro c h
    simp [CreateDir.applyFs, h]
  · intro h
    simp [CreateDir.applyFs, h]

/-- Witness for C3 (amended) at concrete inputs: a file at the path and a
directory at the path. -/
theorem createdir_apply_existing_witness :
    CreateDir.applyFs "p" [("p", FsNode.file "x")]
      = (Except.error (ShiftError.AlreadyExists "Path p exists but is not a directory"),
         [("p", FsNode.file "x")])
    ∧ CreateDir.applyFs "d" [("d", FsNode.dir)] = (Except.ok (), [("d", FsNode.dir)]) :=
  ⟨(createdir_apply_existing [("p", FsNode.file "x")] "p").1 "x" (by decide),
   (createdir_apply_existing [("d", FsNode.dir)] "d").2 (by decide)⟩

/-- C4: directory-creation apply is idempotent: from any state in which the
target path is not occupied by a non-directory file, apply succeeds, applying
again succeeds, and the filesystem after the second call equals the one after
the first call. -/
theorem createdir_apply_idempotent (fs : Fs) (path : String)
    (h : Fs.isFileAt fs path = false) :
    (CreateDir.applyFs path fs).1 = Except.ok ()
    ∧ (CreateDir.applyFs path (CreateDir.applyFs path fs).2).1 = Except.ok ()
    ∧ (CreateDir.applyFs path (CreateDir.applyFs path fs).2).2
        = (CreateDir.applyFs path fs).2 := by
  cases hl : Fs.lookup fs path with
  | none => simp [CreateDir.applyFs, hl, Fs.insert, Fs.lookup]
  | some n =>
    cases n with
    | dir => simp [CreateDir.applyFs, hl]
    | file c => simp [Fs.isFileAt, hl] at h

/-- Witness for C4 starting from the empty filesystem. -/
theorem createdir_apply_idempotent_witness :
    (CreateDir.applyFs "d" []).1 = Except.ok ()
    ∧ (CreateDir.applyFs "d" (CreateDir.applyFs "d" []).2).1 = Except.ok ()
    ∧ (CreateDir.applyFs "d" (CreateDir.applyFs "d" []).2).2
        = (CreateDir.applyFs "d" []).2 :=
  createdir_apply_idempotent [] "d" (by decide)

/-- C5: file creation fails with the already-exists kind whenever the path is
occupied by any node, leaving the filesystem unchanged; and a second apply at
the same path always fails with already-exists, even when the content written
by the first apply is byte-identical. -/
theorem createfile_apply_not_idempotent (fs : Fs) (path content : String) :
    (∀ n, Fs.lookup fs path = some n →
      CreateFile.applyFs path content fs
        = (Except.error (ShiftError.AlreadyExists
            ("File " ++ path ++ " already exists")), fs))
    ∧ (CreateFile.applyFs path content (CreateFile.applyFs path content fs).2).1
        = Except.error (ShiftError.AlreadyExists
            ("File " ++ path ++ " already exists")) := by
  constructor
  · intro n h
    simp [CreateFile.applyFs, h]
  · cases hl : Fs.lookup fs path with
    | none => simp [CreateFile.applyFs, hl, Fs.insert, Fs.lookup]
    | some n => simp [CreateFile.applyFs, hl]

/-- Witness for C5: identical pre-existing content still fails, and the second
of two applies from the empty filesystem fails. -/
theorem createfile_apply_not_idempotent_witness :
    CreateFile.applyFs "f" "A" [("f", FsNode.file "A")]
      = (Except.error (ShiftError.AlreadyExists "File f already exists"),
         [("f", FsNode.file "A")])
    ∧ (CreateFile.applyFs "f" "A" (CreateFile.applyFs "f" "A" []).2).1
        = Except.error (ShiftError.AlreadyExists "File f already exists") :=
  ⟨(createfile_apply_not_idempotent [("f", FsNode.file "A")] "f" "A").1
      (FsNode.file "A") (by decide),
   (createfile_apply_not_idempotent [] "f" "A").2⟩

/-- C6: command-execution revert always fails with the custom cannot-auto-revert
error, for every command — the result does not depend on any apply outcome,
since `Cmd.revert` takes no state — and is_applied always fails with the custom
no-checkable-state error. -/
theorem cmd_revert_isApplied_always_fail (c : Cmd) :
    Cmd.revert c
      = Except.error (ShiftError.Custom "Cannot automatically revert a command execution")
    ∧ Cmd.isApplied c
      = Except.error (ShiftError.Custom "Cannot check if a command has been applied") :=
  ⟨rfl, rfl⟩

/-- C7 counterexample: a launch failure is reported as the `IoError` kind (via
the `From<io::Error>` conversion on the `?` operator), not the `CommandFailed`
kind the claim names. -/
theorem cmd_launch_failure_not_commandfailed :
    Cmd.applyWith (Cmd.new "git" [] none none) (Except.error "No such file or directory")
      = Except.error (ShiftError.IoError "No such file or directory")
    ∧ resultErrKind (Cmd.applyWith (Cmd.new "git" [] none none)
        (Except.error "No such file or directory")) ShiftError.isCommandFailed = false := by
  decide

/-- C7 (amended): a non-accepted exit code is reported as the command-failure
kind with the exit code and captured stderr text in the message; a launch
failure is reported as the I/O-error kind wrapping the underlying OS error. -/
theorem cmd_apply_failure_reporting (c : Cmd) (out : ProcOutput) (ioe : String)
    (h : out.exitCode.getD (-1) ∉ c.success_exit_codes) :
    Cmd.applyWith c (Except.ok out)
      = Except.error (ShiftError.CommandFailed
          ("Command \x27" ++ c.command ++ "\x27 failed with exit code "
            ++ fmtOptInt out.exitCode ++ ". Stderr: " ++ out.stderr))
    ∧ Cmd.applyWith c (Except.error ioe) = Except.error (ShiftError.IoError ioe) := by
  constructor
  · simp [Cmd.applyWith, h]
  · rfl

/-- Witness for C7 (amended): exit code 2 with stderr text, and a launch
failure. -/
theorem cmd_apply_failure_reporting_witness :
    Cmd.applyWith (Cmd.new "git" [] none none) (Except.ok ⟨some 2, "bad"⟩)
      = Except.error (ShiftError.CommandFailed
          "Command \x27git\x27 failed with exit code Some(2). Stderr: bad")
    ∧ Cmd.applyWith (Cmd.new "git" [] none none) (Except.error "launch failed")
      = Except.error (ShiftError.IoError "launch failed") :=
  cmd_apply_failure_reporting (Cmd.new "git" [] none none) ⟨some 2, "bad"⟩
    "launch failed" (by decide)

/-- C10: a child process that terminates without an exit code is treated as
exit code -1: apply succeeds iff -1 is a member of the configured accepted set,
and with the default set installed by `Cmd.new` such a termination never
succeeds. -/
theorem cmd_no_exit_code_as_neg_one (c : Cmd) (out : ProcOutput)
    (nm : String) (args : List String) (wd : Option String)
    (h : out.exitCode = none) :
    (Cmd.applyWith c (Except.ok out) = Except.ok ()
      ↔ (-1 : Int) ∈ c.success_exit_codes)
    ∧ Cmd.applyWith (Cmd.new nm args wd none) (Except.ok out) ≠ Except.ok () := by
  constructor
  · by_cases hm : (-1 : Int) ∈ c.success_exit_codes <;>
      simp [Cmd.applyWith, h, hm]
  · simp [Cmd.applyWith, Cmd.new, h]

/-- Witness for C10: a signal-terminated process against the accepted set
containing -1 and against the default set. -/
theorem cmd_no_exit_code_as_neg_one_witness :
    (Cmd.applyWith ⟨"sh", [], none, [-1]⟩ (Except.ok ⟨none, "killed"⟩) = Except.ok ()
      ↔ (-1 : Int) ∈ ([-1] : List Int))
    ∧ Cmd.applyWith (Cmd.new "sh" [] none none) (Except.ok ⟨none, "killed"⟩)
        ≠ Except.ok () :=
  cmd_no_exit_code_as_neg_one ⟨"sh", [], none, [-1]⟩ ⟨none, "killed"⟩ "sh" [] none rfl

/-! ## Orchestrator theorems -/

/-- Enumeration distributes over append, shifting the start index. -/
theorem enumFromIdx_append (i : Nat) (l₁ l₂ : List ShiftB) :
    enumFromIdx i (l₁ ++ l₂) = enumFromIdx i l₁ ++ enumFromIdx (i + l₁.length) l₂ := by
  induction l₁ generalizing i with
  | nil => simp [enumFromIdx]
  | cons s rest ih =>
    simp only [List.cons_append, enumFromIdx, List.append_eq, ih (i + 1), List.length_cons]
    have harith : i + 1 + rest.length = i + (rest.length + 1) := by omega
    rw [harith]

/-- A member of the enumeration projects to a member of the list. -/
theorem mem_enumFromIdx {p : Nat × ShiftB} {l : List ShiftB} (i : Nat)
    (h : p ∈ enumFromIdx i l) : p.2 ∈ l := by
  induction l generalizing i with
  | nil => simp [enumFromIdx] at h
  | cons s rest ih =>
    rw [enumFromIdx, List.mem_cons] at h
    rcases h with rfl | h
    · exact List.mem_cons_self _ _
    · exact List.mem_cons_of_mem _ (ih _ h)

/-- While every shift's apply succeeds, the orchestrator loop emits successful
apply events and pushes the shifts onto the applied-set in order. -/
theorem applyTraceAux_ok_prefix (pre : List (Nat × ShiftB)) (l₂ applied : List (Nat × ShiftB))
    (h : ∀ p ∈ pre, p.2.applyRes = Except.ok ()) :
    applyTraceAux (pre ++ l₂) applied
      = ((pre.map (fun p => CallEvent.applyCall p.1 (Except.ok ())))
            ++ (applyTraceAux l₂ (pre.reverse ++ applied)).1,
         (applyTraceAux l₂ (pre.reverse ++ applied)).2) := by
  induction pre generalizing applied with
  | nil => simp
  | cons p pre ih =>
    obtain ⟨i, s⟩ := p
    have hs : s.applyRes = Except.ok () := h (i, s) (List.mem_cons_self _ _)
    have hrest : ∀ q ∈ pre, q.2.applyRes = Except.ok () :=
      fun q hq => h q (List.mem_cons_of_mem _ hq)
    simp only [List.cons_append, applyTraceAux, hs, List.append_eq,
      ih ((i, s) :: applied) hrest, List.map_cons, List.reverse_cons,
      List.append_assoc, List.singleton_append, List.nil_append]

/-- Traces restrict to revert calls homomorphically over append. -/
theorem revertCalls_append (l₁ l₂ : List CallEvent) :
    revertCalls (l₁ ++ l₂) = revertCalls l₁ ++ revertCalls l₂ := by
  simp [revertCalls, List.filterMap_append]

/-- A trace of apply events contains no revert calls. -/
theorem revertCalls_applyMap (l : List (Nat × ShiftB)) (r : ShiftResult) :
    revertCalls (l.map (fun p => CallEvent.applyCall p.1 r)) = [] := by
  induction l with
  | nil => rfl
  | cons p l ih => simp [revertCalls, List.filterMap_cons]

/-- A trace of revert events restricts to exactly its index/result pairs. -/
theorem revertCalls_revertMap (l : List (Nat × ShiftB)) :
    revertCalls (l.map (fun p => CallEvent.revertCall p.1 p.2.revertRes))
      = l.map (fun p => (p.1, p.2.revertRes)) := by
  induction l with
  | nil => rfl
  | cons p l ih => simpa [revertCalls, List.filterMap_cons] using ih

/-- C1: if the shift at position k (1-indexed) fails during plan apply after
shifts 1..k-1 succeeded, then the revert calls of the run are exactly one per
shift 1..k-1, in the order k-1, k-2, ..., 1, each recorded with its own revert
result (so a revert failure does not stop the remaining reverts), and the call
returns shift k's original apply error. -/
theorem plan_apply_rollback (first : List ShiftB) (s : ShiftB) (rest : List ShiftB)
    (e : ShiftError)
    (hfirst : ∀ t ∈ first, t.applyRes = Except.ok ())
    (hs : s.applyRes = Except.error e) :
    (ShiftPlan.applyTrace (first ++ s :: rest)).2 = Except.error e
    ∧ revertCalls (ShiftPlan.applyTrace (first ++ s :: rest)).1
        = ((enumFromIdx 0 first).map (fun p => (p.1, p.2.revertRes))).reverse := by
  have henum : ∀ p ∈ enumFromIdx 0 first, p.2.applyRes = Except.ok () :=
    fun p hp => hfirst p.2 (mem_enumFromIdx 0 hp)
  rw [ShiftPlan.applyTrace, enumFromIdx_append,
    applyTraceAux_ok_prefix _ _ _ henum]
  rw [enumFromIdx]
  constructor
  · simp [applyTraceAux, hs]
  · simp only [applyTraceAux, hs]
    rw [revertCalls_append]
    rw [revertCalls_applyMap]
    simp only [List.nil_append, revertCalls, List.filterMap_cons]
    have hmap := revertCalls_revertMap ((enumFromIdx 0 first).reverse ++ [])
    rw [revertCalls] at hmap
    rw [hmap]
    simp [List.map_reverse]

/-- Witness for C1: a three-shift plan whose third apply fails; the second
shift's revert itself fails but the first is still reverted, and the original
apply error is returned. -/
theorem plan_apply_rollback_witness :
    (ShiftPlan.applyTrace
        [⟨Except.ok (), Except.ok (), "s1"⟩,
         ⟨Except.ok (), Except.error (ShiftError.Custom "revert boom"), "s2"⟩,
         ⟨Except.error (ShiftError.Custom "boom"), Except.ok (), "s3"⟩]).2
      = Except.error (ShiftError.Custom "boom")
    ∧ revertCalls (ShiftPlan.applyTrace
        [⟨Except.ok (), Except.ok (), "s1"⟩,
         ⟨Except.ok (), Except.error (ShiftError.Custom "revert boom"), "s2"⟩,
         ⟨Except.error (ShiftError.Custom "boom"), Except.ok (), "s3"⟩]).1
      = [(1, Except.error (ShiftError.Custom "revert boom")), (0, Except.ok ())] := by
  have h := plan_apply_rollback
    [⟨Except.ok (), Except.ok (), "s1"⟩,
     ⟨Except.ok (), Except.error (ShiftError.Custom "revert boom"), "s2"⟩]
    ⟨Except.error (ShiftError.Custom "boom"), Except.ok (), "s3"⟩ []
    (ShiftError.Custom "boom")
    (by intro t ht
        rcases List.mem_cons.mp ht with rfl | ht
        · rfl
        · rcases List.mem_cons.mp ht with rfl | ht
          · rfl
          · cases ht)
    rfl
  exact ⟨h.1, h.2.trans (by rfl)⟩

/-- The revert loop maps every visited shift to a revert event and appends its
failure entries, in visit order, to the accumulated error list. -/
theorem revertTraceAux_spec (l : List (Nat × ShiftB)) (errs : List String) :
    revertTraceAux l errs
      = (l.map (fun p => CallEvent.revertCall p.1 p.2.revertRes),
         errs ++ l.filterMap (fun p => revertFailureEntry p.2)) := by
  induction l generalizing errs with
  | nil => simp [revertTraceAux]
  | cons p l ih =>
    obtain ⟨i, s⟩ := p
    cases hr : s.revertRes with
    | ok u =>
      simp [revertTraceAux, hr, ih, revertFailureEntry, List.filterMap_cons]
    | error e =>
      simp [revertTraceAux, hr, ih, revertFailureEntry, List.filterMap_cons,
        List.append_assoc]

/-- The enumeration projects back to the original list. -/
theorem snd_enumFromIdx (i : Nat) (l : List ShiftB) :
    (enumFromIdx i l).map Prod.snd = l := by
  induction l generalizing i with
  | nil => rfl
  | cons s rest ih => simp [enumFromIdx, ih]

/-- The failure entries collected by the revert loop are the plan's failure
entries in reverse sequence order. -/
theorem revertFailures_eq (shifts : List ShiftB) :
    (enumFromIdx 0 shifts).reverse.filterMap (fun p => revertFailureEntry p.2)
      = revertFailures shifts := by
  have h1 : (enumFromIdx 0 shifts).reverse.filterMap (fun p => revertFailureEntry p.2)
      = ((enumFromIdx 0 shifts).reverse.map Prod.snd).filterMap revertFailureEntry := by
    rw [List.filterMap_map]
    rfl
  rw [h1, List.map_reverse, snd_enumFromIdx, revertFailures]

/-- No failure entries are collected exactly when every revert succeeds. -/
theorem revertFailures_eq_nil_iff (shifts : List ShiftB) :
    revertFailures shifts = [] ↔ ∀ s ∈ shifts, s.revertRes = Except.ok () := by
  rw [revertFailures, List.filterMap_eq_nil_iff]
  constructor
  · intro h s hs
    have hnone := h s (List.mem_reverse.mpr hs)
    cases hr : s.revertRes with
    | ok u => rfl
    | error e => simp [revertFailureEntry, hr] at hnone
  · intro h s hs
    simp only [revertFailureEntry, h s (List.mem_reverse.mp hs)]

/-- C2: plan revert invokes every shift's revert exactly once, in reverse
sequence order, regardless of earlier revert failures; it succeeds iff every
individual revert succeeded, and otherwise returns one aggregate Custom failure
enumerating, in visit order, the description of every shift whose revert
failed, paired with its error. -/
theorem plan_revert_exhaustive (shifts : List ShiftB) :
    (ShiftPlan.revertTrace shifts).1
      = (enumFromIdx 0 shifts).reverse.map
          (fun p => CallEvent.revertCall p.1 p.2.revertRes)
    ∧ ((ShiftPlan.revertTrace shifts).2 = Except.ok ()
        ↔ ∀ s ∈ shifts, s.revertRes = Except.ok ())
    ∧ (revertFailures shifts ≠ [] →
        (ShiftPlan.revertTrace shifts).2
          = Except.error (ShiftError.Custom
              ("Failed to revert some shifts: "
                ++ String.intercalate ", " (revertFailures shifts)))) := by
  have hout : ShiftPlan.revertTrace shifts
      = ((enumFromIdx 0 shifts).reverse.map
            (fun p => CallEvent.revertCall p.1 p.2.revertRes),
         if (revertFailures shifts).isEmpty then Except.ok ()
         else Except.error (ShiftError.Custom
           ("Failed to revert some shifts: "
             ++ String.intercalate ", " (revertFailures shifts)))) := by
    rw [ShiftPlan.revertTrace, revertTraceAux_spec]
    simp only [List.nil_append, revertFailures_eq]
    by_cases hemp : (revertFailures shifts).isEmpty
    · rw [if_pos hemp, if_pos hemp]
    · rw [if_neg hemp, if_neg hemp]
  by_cases hemp : revertFailures shifts = []
  · have hempb : (revertFailures shifts).isEmpty = true := by
      rw [hemp]
      rfl
    have hres : (ShiftPlan.revertTrace shifts).2 = Except.ok () := by
      rw [hout]
      simp [hempb]
    refine ⟨by rw [hout], ?_, fun hne => absurd hemp hne⟩
    rw [hres]
    constructor
    · intro _
      exact (revertFailures_eq_nil_iff shifts).mp hemp
    · intro _
      rfl
  · have hempb : (revertFailures shifts).isEmpty = false := by
      cases hl : revertFailures shifts with
      | nil => exact absurd hl hemp
      | cons a l => rfl
    have hres : (ShiftPlan.revertTrace shifts).2
        = Except.error (ShiftError.Custom
            ("Failed to revert some shifts: "
              ++ String.intercalate ", " (revertFailures shifts))) := by
      rw [hout]
      simp [hempb]
    refine ⟨by rw [hout], ?_, fun _ => hres⟩
    rw [hres]
    constructor
    · intro hcontr
      exact Except.noConfusion hcontr
    · intro hall
      exact absurd (((revertFailures_eq_nil_iff shifts).mpr hall)) hemp

/-! ## Composite (GitHubClone) theorems -/

/-- C9: when the composite clone's target directory path is occupied by a
non-directory file, apply fails with the already-exists error produced by the
internal directory-creation shift, the world is unchanged, and in particular
no command was handed to the process runner. -/
theorem github_clone_existing_file_blocks (g : GitHubClone) (w : World)
    (content : String)
    (h : Fs.lookup w.fs g.target_dir = some (FsNode.file content)) :
    GitHubClone.applyS g w
      = (Except.error (ShiftError.AlreadyExists
          ("Path " ++ g.target_dir ++ " exists but is not a directory")), w)
    ∧ (GitHubClone.applyS g w).2.executed = w.executed := by
  have happ : GitHubClone.applyS g w
      = (Except.error (ShiftError.AlreadyExists
          ("Path " ++ g.target_dir ++ " exists but is not a directory")), w) := by
    simp [GitHubClone.applyS, GitHubClone.build_plan, ShiftPlanV.applyP,
      planApplyWAux, ShiftV.applyW, CreateDir.applyFs, h, revertAllW]
  exact ⟨happ, by rw [happ]⟩

/-- Witness for C9: a concrete clone whose target "r" is an existing file. -/
theorem github_clone_existing_file_blocks_witness :
    GitHubClone.applyS ⟨"https://github.com/u/r.git", "r", none, none, none⟩
        ⟨[("r", FsNode.file "data")], [], []⟩
      = (Except.error (ShiftError.AlreadyExists "Path r exists but is not a directory"),
         ⟨[("r", FsNode.file "data")], [], []⟩)
    ∧ (GitHubClone.applyS ⟨"https://github.com/u/r.git", "r", none, none, none⟩
        ⟨[("r", FsNode.file "data")], [], []⟩).2.executed = ([] : List Cmd) := by
  have h := github_clone_existing_file_blocks
    ⟨"https://github.com/u/r.git", "r", none, none, none⟩
    ⟨[("r", FsNode.file "data")], [], []⟩ "data" (by decide)
  exact ⟨h.1.trans (by decide), h.2⟩

/-! ## Repository-name (C8) theorems -/

/-- Splitting always yields at least one part. -/
theorem splitChar_ne_nil (sep : Char) (s : List Char) : splitChar sep s ≠ [] := by
  cases s with
  | nil => simp [splitChar]
  | cons c rest =>
    by_cases hc : c = sep
    · simp [splitChar, hc]
    · cases hr : splitChar sep rest with
      | nil => simp [splitChar, hc, hr]
      | cons h t => simp [splitChar, hc, hr]

/-- A list without the separator splits into itself alone. -/
theorem splitChar_of_not_mem (sep : Char) (s : List Char) (h : sep ∉ s) :
    splitChar sep s = [s] := by
  induction s with
  | nil => rfl
  | cons c rest ih =>
    have hc : ¬(c = sep) := fun hh => h (List.mem_cons.mpr (Or.inl hh.symm))
    have hrest : sep ∉ rest := fun hh => h (List.mem_cons_of_mem _ hh)
    simp [splitChar, hc, ih hrest]

/-- A list containing the separator splits into at least two parts. -/
theorem two_le_splitChar_of_mem (sep : Char) (s : List Char) (h : sep ∈ s) :
    2 ≤ (splitChar sep s).length := by
  induction s with
  | nil => cases h
  | cons c rest ih =>
    by_cases hc : c = sep
    · have h1 : splitChar sep rest ≠ [] := splitChar_ne_nil sep rest
      have h2 : 0 < (splitChar sep rest).length := List.length_pos.mpr h1
      simp only [splitChar, if_pos hc, List.length_cons]
      omega
    · have hrest : sep ∈ rest := by
        rcases List.mem_cons.mp h with hh | hh
        · exact absurd hh.symm hc
        · exact hh
      have h2 := ih hrest
      cases hr : splitChar sep rest with
      | nil => exact absurd hr (splitChar_ne_nil sep rest)
      | cons hd tl =>
        rw [hr] at h2
        simp only [splitChar, if_neg hc, hr, List.length_cons] at h2 ⊢
        omega

/-- A list without the separator is its own last segment. -/
theorem afterLastSep_of_not_mem (sep : Char) (s : List Char) (h : sep ∉ s) :
    afterLastSep sep s = s := by
  cases s with
  | nil => rfl
  | cons c rest =>
    have hc : ¬(c = sep) := fun hh => h (List.mem_cons.mpr (Or.inl hh.symm))
    have hrest : sep ∉ rest := fun hh => h (List.mem_cons_of_mem _ hh)
    simp [afterLastSep, hrest, hc]

/-- The last part produced by splitting is the suffix after the last
separator. -/
theorem getLast?_splitChar (sep : Char) (s : List Char) :
    (splitChar sep s).getLast? = some (afterLastSep sep s) := by
  induction s with
  | nil => rfl
  | cons c rest ih =>
    obtain ⟨h0, t0, hr⟩ : ∃ h0 t0, splitChar sep rest = h0 :: t0 := by
      cases hq : splitChar sep rest with
      | nil => exact absurd hq (splitChar_ne_nil sep rest)
      | cons a b => exact ⟨a, b, rfl⟩
    rw [hr] at ih
    by_cases hc : c = sep
    · by_cases hm : sep ∈ rest
      · rw [show splitChar sep (c :: rest) = [] :: splitChar sep rest from by
          simp [splitChar, hc]]
        rw [hr, List.getLast?_cons_cons, ih]
        simp [afterLastSep, hm]
      · have hone := splitChar_of_not_mem sep rest hm
        rw [show splitChar sep (c :: rest) = [] :: splitChar sep rest from by
          simp [splitChar, hc]]
        rw [hone]
        simp [afterLastSep, hm, hc]
    · by_cases hm : sep ∈ rest
      · cases t0 with
        | nil =>
          have htwo := two_le_splitChar_of_mem sep rest hm
          rw [hr] at htwo
          simp at htwo
        | cons a b =>
          rw [show splitChar sep (c :: rest) = (c :: h0) :: a :: b from by
            simp [splitChar, hc, hr]]
          rw [List.getLast?_cons_cons]
          rw [List.getLast?_cons_cons] at ih
          rw [ih]
          simp [afterLastSep, hm]
      · have hone := splitChar_of_not_mem sep rest hm
        rw [hone] at hr
        injection hr with hr1 hr2
        rw [show splitChar sep (c :: rest) = [c :: rest] from by
          simp [splitChar, hc, hone]]
        simp [afterLastSep, hm, hc]

/-- takeWhile passes over a wholly satisfying prefix. -/
theorem takeWhile_append_all (p : Char → Bool) (xs ys : List Char)
    (h : ∀ x ∈ xs, p x = true) :
    (xs ++ ys).takeWhile p = xs ++ ys.takeWhile p := by
  induction xs with
  | nil => rfl
  | cons a l ih =>
    have ha := h a (List.mem_cons_self _ _)
    simp [List.takeWhile_cons, ha,
      ih (fun x hx => h x (List.mem_cons_of_mem _ hx))]

/-- takeWhile never reaches past a failing element. -/
theorem takeWhile_append_stop (p : Char → Bool) (xs ys : List Char)
    (h : ∃ x ∈ xs, p x = false) :
    (xs ++ ys).takeWhile p = xs.takeWhile p := by
  induction xs with
  | nil => simp at h
  | cons a l ih =>
    by_cases ha : p a = true
    · obtain ⟨x, hx, hpx⟩ := h
      rcases List.mem_cons.mp hx with rfl | hx2
      · rw [ha] at hpx
        cases hpx
      · simp [List.takeWhile_cons, ha, ih ⟨x, hx2, hpx⟩]
    · have ha2 : p a = false := by
        cases hpa : p a with
        | true => exact absurd hpa ha
        | false => rfl
      simp [List.takeWhile_cons, ha2]

/-- The front-recursive last segment agrees with the spec's reading: the
longest suffix containing no separator. -/
theorem afterLastSep_eq_suffix (sep : Char) (s : List Char) :
    afterLastSep sep s = (s.reverse.takeWhile (fun c => c != sep)).reverse := by
  induction s with
  | nil => rfl
  | cons c rest ih =>
    rw [List.reverse_cons]
    by_cases hm : sep ∈ rest
    · have hstop : ∃ x ∈ rest.reverse, (fun c => c != sep) x = false :=
        ⟨sep, List.mem_reverse.mpr hm, by simp⟩
      rw [takeWhile_append_stop _ _ _ hstop]
      rw [show afterLastSep sep (c :: rest) = afterLastSep sep rest from by
        simp [afterLastSep, hm]]
      exact ih
    · have hall : ∀ x ∈ rest.reverse, (fun c => c != sep) x = true := by
        intro x hx
        have hxr : x ∈ rest := List.mem_reverse.mp hx
        have hne : ¬(x = sep) := fun hh => hm (hh ▸ hxr)
        simp [hne]
      rw [takeWhile_append_all _ _ _ hall]
      by_cases hc : c = sep
      · simp [afterLastSep, hm, hc, List.takeWhile_cons]
      · simp [afterLastSep, hm, hc, List.takeWhile_cons]

/-- C8: the composite clone's derived repository name equals the URL's final
path segment — the substring after the last slash — with a trailing ".git"
suffix removed when present. -/
theorem get_repo_name_matches_spec (g : GitHubClone) :
    GitHubClone.get_repo_name g = specRepoName g.repo_url := by
  have hlast := getLast?_splitChar '/' g.repo_url.toList
  have hseg : afterLastSep '/' g.repo_url.toList = lastSegment g.repo_url := by
    rw [afterLastSep_eq_suffix]
    rfl
  rw [hseg] at hlast
  have hlast2 : (splitChar '/' g.repo_url.data).getLast? = some (lastSegment g.repo_url) :=
    hlast
  simp [GitHubClone.get_repo_name, specRepoName, hlast, hlast2]
